import Mathlib

/-!
# Verification of the GitNext object-and-reference store

A shallow embedding, in Lean 4, of the GitNext core: the canonical object
model and content addressing (`crates/gitnext-core/src/lib.rs`), the legacy
Git-format re-serializer (`CompatHashDeriver`), the object validators
(`crates/gitnext-objects/src/lib.rs`), the in-memory and SQLite storage
backends with their transactions (`crates/gitnext-storage/src/memory.rs`,
`crates/gitnext-storage/src/sqlite.rs`), and the repository operations with
the operation log and its undo/redo engine
(`crates/gitnext-operations/src/repository.rs`).

Modelling conventions:

* Byte strings produced by cryptographic hashes are modelled symbolically:
  `canonical_hash` wraps an injective encoding (`Enc`) of the object, which
  is the standard collision-free idealization of BLAKE3 over the canonical
  (bincode) serialization.  Likewise `GitHash.fromGitBytes` wraps an
  injective encoding of the emitted Git-format byte stream, idealizing
  SHA-1/SHA-256.
* Blob payloads that the code only ever writes and reads back through
  matching serializers (UTF-8 branch names, bincode-encoded log entries,
  bincode-encoded log-chain states) are modelled by the inductive `BytesM`
  whose constructors stand for the distinct encodings.
* `Uuid::new_v4` is modelled by a freshness counter carried in the
  repository state; `Utc::now()` timestamps are modelled as `0` (no control
  flow in the verified code depends on them).
* Rust `HashMap`s are modelled as association lists with insert-replace
  semantics; observable behaviour goes through `lookupA`, so iteration
  order is irrelevant.
-/

set_option autoImplicit false

namespace GitNext

/-- Injective encoding trees: the image type of the idealized hash
functions and of the modelled binary serializations. -/
inductive Enc where
  | estr (s : String)
  | enat (n : Nat)
  | eint (i : Int)
  | enil
  | econs (hd tl : Enc)
deriving DecidableEq, Repr

/-- Encode a list injectively, given an injective element encoding. -/
def encList {α : Type} (f : α → Enc) : List α → Enc
  | [] => .enil
  | x :: xs => .econs (f x) (encList f xs)

/-- Encode an option injectively. -/
def encOpt {α : Type} (f : α → Enc) : Option α → Enc
  | none => .enat 0
  | some x => .econs (.enat 1) (f x)

/-- Encode a pair injectively. -/
def encPair {α β : Type} (f : α → Enc) (g : β → Enc) : α × β → Enc
  | (a, b) => .econs (f a) (g b)

section Assoc

variable {κ α : Type} [DecidableEq κ]

/-- First-match lookup in an association list (models `HashMap::get`). -/
def lookupA (k : κ) : List (κ × α) → Option α
  | [] => none
  | (k2, v) :: rest => if k2 = k then some v else lookupA k rest

/-- Remove all bindings of a key (helper for insert-replace). -/
def removeA (k : κ) : List (κ × α) → List (κ × α)
  | [] => []
  | (k2, v) :: rest => if k2 = k then removeA k rest else (k2, v) :: removeA k rest

/-- Insert-replace (models `HashMap::insert`). -/
def insertA (k : κ) (v : α) (l : List (κ × α)) : List (κ × α) :=
  (k, v) :: removeA k l

@[simp] theorem lookupA_nil (k : κ) : lookupA (α := α) k [] = none := rfl

theorem lookupA_cons (k k2 : κ) (v : α) (rest : List (κ × α)) :
    lookupA k ((k2, v) :: rest) = if k2 = k then some v else lookupA k rest := rfl

@[simp] theorem lookupA_removeA_self (k : κ) (l : List (κ × α)) :
    lookupA k (removeA k l) = none := by
  induction l with
  | nil => rfl
  | cons p rest ih =>
    obtain ⟨k2, v⟩ := p
    by_cases h : k2 = k
    · simp [removeA, h, ih]
    · simp [removeA, h, lookupA, ih]

theorem lookupA_removeA_ne (k j : κ) (l : List (κ × α)) (h : j ≠ k) :
    lookupA j (removeA k l) = lookupA j l := by
  induction l with
  | nil => rfl
  | cons p rest ih =>
    obtain ⟨k2, v⟩ := p
    by_cases hk : k2 = k
    · subst hk
      have hkj : k2 ≠ j := fun hh => h hh.symm
      simp [removeA, lookupA, hkj, ih]
    · simp only [removeA, if_neg hk, lookupA]
      by_cases hj : k2 = j
      · simp [hj]
      · simp [hj, ih]

@[simp] theorem lookupA_insertA_self (k : κ) (v : α) (l : List (κ × α)) :
    lookupA k (insertA k v l) = some v := by
  simp [insertA, lookupA]

theorem lookupA_insertA_ne (k j : κ) (v : α) (l : List (κ × α)) (h : j ≠ k) :
    lookupA j (insertA k v l) = lookupA j l := by
  have : k ≠ j := fun hh => h hh.symm
  simp [insertA, lookupA, this, lookupA_removeA_ne k j l h]

theorem lookupA_insertA (k j : κ) (v : α) (l : List (κ × α)) :
    lookupA j (insertA k v l) = if k = j then some v else lookupA j l := by
  by_cases h : k = j
  · subst h; simp
  · simp [h, lookupA_insertA_ne k j v l (fun hh => h hh.symm)]

end Assoc

/-! ## Canonical object model (`gitnext-core`) -/

/-- `FileMode` (gitnext-core). -/
inductive FileMode where
  | normal
  | executable
  | symlink
  | tree
deriving DecidableEq, Repr

/-- `ObjectType` (gitnext-core). -/
inductive ObjectType where
  | blob
  | tree
  | commit
  | tag
deriving DecidableEq, Repr

/-- `ObjectId`: the 256-bit BLAKE3 content address.  Modelled as the
injective image of the canonical serialization (collision-free
idealization of BLAKE3). -/
structure ObjectId where
  blake3_hash : Enc
deriving DecidableEq, Repr

/-- `Signature` (gitnext-core): name, email, Unix seconds, timezone offset
in minutes. -/
structure Signature where
  name : String
  email : String
  timestamp : Int
  timezone_offset : Int
deriving DecidableEq, Repr

/-- `TreeEntry` (gitnext-core). -/
structure TreeEntry where
  name : String
  mode : FileMode
  hash : ObjectId
  entry_type : ObjectType
deriving DecidableEq, Repr

/-- `Operation` (gitnext-operations): the tagged operation record stored in
log entries, carrying the inverse information used by undo. -/
inductive Operation where
  | commitOp (before_head : Option ObjectId) (after_head : ObjectId)
      (tree : ObjectId) (message : String) (parents : List ObjectId)
  | createBranch (name : String) (target : ObjectId)
      (before_refs : List (String × ObjectId))
  | deleteBranch (name : String) (deleted_target : ObjectId)
      (before_refs : List (String × ObjectId))
  | switchBranch (from_branch to_branch : String)
      (before_head after_head : ObjectId)
  | mergeOp (branch : String) (before_head after_head : ObjectId)
deriving DecidableEq, Repr

/-- `RepositoryState` (gitnext-operations): HEAD plus the direct-reference
snapshot. -/
structure RepositoryState where
  head : Option ObjectId
  refs : List (String × ObjectId)
deriving DecidableEq, Repr

/-- `LogEntry` (gitnext-operations).  `id` models the `Uuid`; `timestamp`
models `DateTime<Utc>`; `command`/`args` model `CommandIntent` (the
`working_directory` and `UserMetadata` fields are constant in all call
sites and carry no behaviour, so they are not represented). -/
structure LogEntry where
  id : Nat
  timestamp : Nat
  operation : Operation
  before_state : RepositoryState
  after_state : RepositoryState
  command : String
  args : List String
deriving DecidableEq, Repr

/-- Blob payloads.  Each constructor stands for a distinct binary encoding
the code writes into blob contents: raw UTF-8 text (file contents and
branch names), the bincode encoding of a `LogEntry`, and the bincode
encoding of the `(current_position, log_chain)` pair. -/
inductive BytesM where
  | utf8 (s : String)
  | logEntryEnc (e : LogEntry)
  | chainEnc (pos : Nat) (ids : List Nat)
deriving DecidableEq, Repr

/-- Byte length of a modelled byte string.  For the opaque bincode
encodings the concrete length is not modelled (no verified claim depends
on it); content addressing distinguishes payloads via the content field
itself. -/
def BytesM.byteLen : BytesM → Nat
  | .utf8 s => s.utf8ByteSize
  | .logEntryEnc _ => 0
  | .chainEnc _ _ => 0

/-- `Blob` (gitnext-core): optional content plus declared size. -/
structure Blob where
  content : Option BytesM
  size : Nat
deriving DecidableEq, Repr

/-- `Blob::new`: size is taken from the content length. -/
def Blob.new (content : BytesM) : Blob :=
  { content := some content, size := content.byteLen }

/-- `Tree` (gitnext-core). -/
structure Tree where
  entries : List TreeEntry
deriving DecidableEq, Repr

/-- `Tree::new` (gitnext-core): sorts entries by name for the canonical
representation (`sort_by` is a non-strict sort; duplicates are retained).
Insertion sort is used so the model computes by structural recursion; the
verified claims depend only on the ordering of the result. -/
def Tree.new (entries : List TreeEntry) : Tree :=
  { entries := entries.insertionSort (fun a b => a.name ≤ b.name) }

/-- `Commit` (gitnext-core). -/
structure Commit where
  tree : ObjectId
  parents : List ObjectId
  author : Signature
  committer : Signature
  message : String
deriving DecidableEq, Repr

/-- `Tag` (gitnext-core). -/
structure Tag where
  target : ObjectId
  target_type : ObjectType
  name : String
  tagger : Signature
  message : String
deriving DecidableEq, Repr

/-- `GitObject` (gitnext-core). -/
inductive GitObject where
  | blob (b : Blob)
  | tree (t : Tree)
  | commit (c : Commit)
  | tag (t : Tag)
deriving DecidableEq, Repr

/-- `GitObject::object_type`. -/
def GitObject.object_type : GitObject → ObjectType
  | .blob _ => .blob
  | .tree _ => .tree
  | .commit _ => .commit
  | .tag _ => .tag

/-! Injective encodings modelling the canonical (bincode) serialization. -/

def encFileMode : FileMode → Enc
  | .normal => .enat 0
  | .executable => .enat 1
  | .symlink => .enat 2
  | .tree => .enat 3

def encObjectType : ObjectType → Enc
  | .blob => .enat 1
  | .tree => .enat 2
  | .commit => .enat 3
  | .tag => .enat 4

def encObjectId (id : ObjectId) : Enc := id.blake3_hash

def encSignature (s : Signature) : Enc :=
  .econs (.estr s.name) (.econs (.estr s.email)
    (.econs (.eint s.timestamp) (.eint s.timezone_offset)))

def encTreeEntry (e : TreeEntry) : Enc :=
  .econs (.estr e.name) (.econs (encFileMode e.mode)
    (.econs (encObjectId e.hash) (encObjectType e.entry_type)))

def encRefPair (p : String × ObjectId) : Enc :=
  encPair (fun s => .estr s) encObjectId p

def encOperation : Operation → Enc
  | .commitOp bh ah t m ps =>
    .econs (.enat 0) (.econs (encOpt encObjectId bh) (.econs (encObjectId ah)
      (.econs (encObjectId t) (.econs (.estr m) (encList encObjectId ps)))))
  | .createBranch n t br =>
    .econs (.enat 1) (.econs (.estr n) (.econs (encObjectId t)
      (encList encRefPair br)))
  | .deleteBranch n t br =>
    .econs (.enat 2) (.econs (.estr n) (.econs (encObjectId t)
      (encList encRefPair br)))
  | .switchBranch f t bh ah =>
    .econs (.enat 3) (.econs (.estr f) (.econs (.estr t)
      (.econs (encObjectId bh) (encObjectId ah))))
  | .mergeOp b bh ah =>
    .econs (.enat 4) (.econs (.estr b)
      (.econs (encObjectId bh) (encObjectId ah)))

def encRepositoryState (s : RepositoryState) : Enc :=
  .econs (encOpt encObjectId s.head) (encList encRefPair s.refs)

def encLogEntry (e : LogEntry) : Enc :=
  .econs (.enat e.id) (.econs (.enat e.timestamp)
    (.econs (encOperation e.operation)
      (.econs (encRepositoryState e.before_state)
        (.econs (encRepositoryState e.after_state)
          (.econs (.estr e.command) (encList (fun s => .estr s) e.args))))))

def encBytesM : BytesM → Enc
  | .utf8 s => .econs (.enat 0) (.estr s)
  | .logEntryEnc e => .econs (.enat 1) (encLogEntry e)
  | .chainEnc pos ids =>
    .econs (.enat 2) (.econs (.enat pos) (encList (fun n => .enat n) ids))

/-- The canonical serialization of an object (models
`GitObject::canonical_serialize`, i.e. the deterministic bincode
encoding): a self-describing injective encoding of the variant and its
fields. -/
def canonical_serialize : GitObject → Enc
  | .blob b => .econs (.enat 0)
      (.econs (encOpt encBytesM b.content) (.enat b.size))
  | .tree t => .econs (.enat 1) (encList encTreeEntry t.entries)
  | .commit c => .econs (.enat 2)
      (.econs (encObjectId c.tree) (.econs (encList encObjectId c.parents)
        (.econs (encSignature c.author) (.econs (encSignature c.committer)
          (.estr c.message)))))
  | .tag t => .econs (.enat 3)
      (.econs (encObjectId t.target) (.econs (encObjectType t.target_type)
        (.econs (.estr t.name) (.econs (encSignature t.tagger)
          (.estr t.message)))))

/-- `GitObject::canonical_hash`: the BLAKE3 content address of the
canonical serialization, idealized as the injective wrapping of the
canonical bytes. -/
def canonical_hash (o : GitObject) : ObjectId :=
  ⟨canonical_serialize o⟩

/-- `Reference` targets (gitnext-storage). -/
inductive ReferenceTarget where
  | direct (id : ObjectId)
  | symbolic (name : String)
deriving DecidableEq, Repr

/-- A named reference (gitnext-storage). -/
structure Reference where
  name : String
  target : ReferenceTarget
deriving DecidableEq, Repr

/-! ## Legacy-digest re-serializer (`CompatHashDeriver`, gitnext-core) -/

/-- `GitNextError` (gitnext-core). -/
inductive GitNextError where
  | serialization (msg : String)
  | hashDerivation (msg : String)
  | invalidFormat (msg : String)
deriving DecidableEq, Repr

/-- `GitHashType` (gitnext-core). -/
inductive GitHashType where
  | sha1
  | sha256
deriving DecidableEq, Repr

/-- One byte (or run of bytes) of the emitted legacy Git format.  `ch` is a
literal character (its UTF-8 bytes); `oid` is the 32 raw bytes of an
ObjectId (`as_bytes`); `hexOid` is the 64 hex characters of an ObjectId;
`opaqueBytes` is a modelled binary payload emitted verbatim;
`digestSha1Of`/`digestSha256Of` are the raw bytes of a legacy digest over
the given input — the historical Git tree format would embed these for
child entries, and the source never emits them. -/
inductive GitByte where
  | ch (c : Char)
  | oid (id : ObjectId)
  | hexOid (id : ObjectId)
  | opaqueBytes (b : BytesM)
  | digestSha1Of (input : Enc)
  | digestSha256Of (input : Enc)
deriving DecidableEq, Repr

/-- Byte width of one `GitByte` token. -/
def GitByte.size : GitByte → Nat
  | .ch c => c.utf8Size
  | .oid _ => 32
  | .hexOid _ => 64
  | .opaqueBytes b => b.byteLen
  | .digestSha1Of _ => 20
  | .digestSha256Of _ => 32

/-- Total byte length of a token stream. -/
def gitBytesLen (l : List GitByte) : Nat :=
  (l.map GitByte.size).sum

/-- The UTF-8 bytes of a string as tokens. -/
def strBytes (s : String) : List GitByte :=
  s.data.map .ch

/-- The NUL separator byte. -/
def nulByte : GitByte := .ch (Char.ofNat 0)

/-- The bytes of a modelled blob payload. -/
def payloadBytes : BytesM → List GitByte
  | .utf8 s => strBytes s
  | b => [.opaqueBytes b]

def encGitByte : GitByte → Enc
  | .ch c => .econs (.enat 0) (.enat c.toNat)
  | .oid id => .econs (.enat 1) id.blake3_hash
  | .hexOid id => .econs (.enat 2) id.blake3_hash
  | .opaqueBytes b => .econs (.enat 3) (encBytesM b)
  | .digestSha1Of p => .econs (.enat 4) p
  | .digestSha256Of p => .econs (.enat 5) p

/-- `GitHash` (gitnext-core): a SHA-1 or SHA-256 digest, idealized as the
injective image of the hashed byte stream. -/
inductive GitHash where
  | sha1 (input : Enc)
  | sha256 (input : Enc)
deriving DecidableEq, Repr

/-- `GitHash::from_git_bytes`: hash the Git-format bytes with the requested
algorithm. -/
def GitHash.fromGitBytes (bytes : List GitByte) : GitHashType → GitHash
  | .sha1 => .sha1 (encList encGitByte bytes)
  | .sha256 => .sha256 (encList encGitByte bytes)

/-- `CompatHashDeriver::format_signature`, i.e. Rust
`format!("{} <{}> {} {:+05}", name, email, timestamp, timezone_offset)`.
`fmtPlus05` models the `{:+05}` conversion: explicit sign, then zero fill
up to a total width of five. -/
def fmtPlus05 (n : Int) : String :=
  let sign := if n < 0 then "-" else "+"
  let digits := toString n.natAbs
  sign ++ String.mk (List.replicate (5 - (1 + digits.length)) '0') ++ digits

def format_signature (sig : Signature) : String :=
  sig.name ++ " <" ++ sig.email ++ "> " ++ toString sig.timestamp ++ " " ++
    fmtPlus05 sig.timezone_offset

/-- `CompatHashDeriver::serialize_blob_to_git`:
`"blob <len>\0" ++ content`; fails when the blob carries no content. -/
def serialize_blob_to_git (b : Blob) : Except GitNextError (List GitByte) :=
  match b.content with
  | none => .error (.invalidFormat "Blob missing content for Git export")
  | some content =>
    .ok (strBytes ("blob " ++ toString content.byteLen) ++ [nulByte] ++
      payloadBytes content)

/-- The octal mode string of a tree entry (`40000` has no leading zero). -/
def modeStr : FileMode → String
  | .normal => "100644"
  | .executable => "100755"
  | .symlink => "120000"
  | .tree => "40000"

/-- One tree entry in legacy format: `mode ' ' name '\0'` followed by the
32 raw bytes of the entry's ObjectId (`entry.hash.as_bytes()`). -/
def treeEntryBytes (e : TreeEntry) : List GitByte :=
  strBytes (modeStr e.mode) ++ [.ch ' '] ++ strBytes e.name ++ [nulByte] ++
    [.oid e.hash]

/-- `CompatHashDeriver::serialize_tree_to_git`. -/
def serialize_tree_to_git (t : Tree) : List GitByte :=
  let content := (t.entries.map treeEntryBytes).flatten
  strBytes ("tree " ++ toString (gitBytesLen content)) ++ [nulByte] ++ content

/-- `CompatHashDeriver::serialize_commit_to_git`. -/
def serialize_commit_to_git (c : Commit) : List GitByte :=
  let content :=
    strBytes "tree " ++ [.hexOid c.tree] ++ [.ch '\n'] ++
    (c.parents.map (fun p => strBytes "parent " ++ [.hexOid p] ++ [.ch '\n'])).flatten ++
    strBytes "author " ++ strBytes (format_signature c.author) ++ [.ch '\n'] ++
    strBytes "committer " ++ strBytes (format_signature c.committer) ++ [.ch '\n'] ++
    [.ch '\n'] ++ strBytes c.message
  strBytes ("commit " ++ toString (gitBytesLen content)) ++ [nulByte] ++ content

/-- The `type` line token of a tag. -/
def typeStr : ObjectType → String
  | .blob => "blob"
  | .tree => "tree"
  | .commit => "commit"
  | .tag => "tag"

/-- `CompatHashDeriver::serialize_tag_to_git`. -/
def serialize_tag_to_git (t : Tag) : List GitByte :=
  let content :=
    strBytes "object " ++ [.hexOid t.target] ++ [.ch '\n'] ++
    strBytes "type " ++ strBytes (typeStr t.target_type) ++ [.ch '\n'] ++
    strBytes "tag " ++ strBytes t.name ++ [.ch '\n'] ++
    strBytes "tagger " ++ strBytes (format_signature t.tagger) ++ [.ch '\n'] ++
    [.ch '\n'] ++ strBytes t.message
  strBytes ("tag " ++ toString (gitBytesLen content)) ++ [nulByte] ++ content

/-- `CompatHashDeriver::serialize_to_git_format`. -/
def serialize_to_git_format : GitObject → Except GitNextError (List GitByte)
  | .blob b => serialize_blob_to_git b
  | .tree t => .ok (serialize_tree_to_git t)
  | .commit c => .ok (serialize_commit_to_git c)
  | .tag t => .ok (serialize_tag_to_git t)

/-- `CompatHashDeriver`: the cache maps an `ObjectId` to a `GitHash`,
with no record of which algorithm produced the cached digest. -/
structure CompatHashDeriver where
  cache : List (ObjectId × GitHash)
deriving DecidableEq, Repr

def CompatHashDeriver.new : CompatHashDeriver := ⟨[]⟩

/-- `CompatHashDeriver::derive_git_hash`: return the cached digest for the
object's canonical hash if present (regardless of `hash_type`), else
serialize to Git format, hash with the requested algorithm, and cache. -/
def derive_git_hash (d : CompatHashDeriver) (o : GitObject)
    (hash_type : GitHashType) :
    Except GitNextError GitHash × CompatHashDeriver :=
  let object_id := canonical_hash o
  match lookupA object_id d.cache with
  | some cached_hash => (.ok cached_hash, d)
  | none =>
    match serialize_to_git_format o with
    | .error e => (.error e, d)
    | .ok git_bytes =>
      let git_hash := GitHash.fromGitBytes git_bytes hash_type
      (.ok git_hash, ⟨insertA object_id git_hash d.cache⟩)

/-! ## Object validation (`gitnext-objects`) -/

/-- `ObjectError` (gitnext-objects). -/
inductive ObjectError where
  | invalidType (msg : String)
  | missingField (msg : String)
  | invalidSignature (msg : String)
  | invalidTreeEntry (msg : String)
deriving DecidableEq, Repr

/-- `Signature::validate` (gitnext-objects). -/
def Signature.validate (s : Signature) : Except ObjectError Unit :=
  if s.name.isEmpty then .error (.invalidSignature "Empty name")
  else if s.email.isEmpty then .error (.invalidSignature "Empty email")
  else if !(s.email.contains '@') then
    .error (.invalidSignature ("Invalid email format: " ++ s.email))
  else .ok ()

/-- `TreeEntry::validate` (gitnext-objects). -/
def TreeEntry.validate (e : TreeEntry) : Except ObjectError Unit :=
  if e.name.isEmpty then .error (.invalidTreeEntry "Empty name")
  else if e.name.contains '/' || e.name.contains (Char.ofNat 0) then
    .error (.invalidTreeEntry ("Invalid characters in name: " ++ e.name))
  else
    match e.mode, e.entry_type with
    | .tree, .tree => .ok ()
    | .normal, .blob => .ok ()
    | .executable, .blob => .ok ()
    | .symlink, .blob => .ok ()
    | _, _ => .error (.invalidTreeEntry "Mode does not match type")

/-- The adjacency check of `Tree::validate`: each consecutive pair of
entries must satisfy `name[i-1] < name[i]`. -/
def treeSortedCheck : List TreeEntry → Except ObjectError Unit
  | [] => .ok ()
  | [_] => .ok ()
  | a :: b :: rest =>
    if a.name ≥ b.name then
      .error (.invalidTreeEntry
        ("Tree entries not sorted: '" ++ a.name ++ "' >= '" ++ b.name ++ "'"))
    else treeSortedCheck (b :: rest)

/-- The per-entry validation loop of `Tree::validate`. -/
def treeEntriesValid : List TreeEntry → Except ObjectError Unit
  | [] => .ok ()
  | e :: rest => do
    e.validate
    treeEntriesValid rest

/-- `Tree::validate` (gitnext-objects): strict sortedness of names, then
each entry valid. -/
def Tree.validate (t : Tree) : Except ObjectError Unit := do
  treeSortedCheck t.entries
  treeEntriesValid t.entries

/-! ## Storage backends (`gitnext-storage`) -/

/-- `StorageError`, with the variants used by the memory and SQLite
backends and by the repository layer.  The formatted detail strings are
modelled by fixed messages where the original interpolates hex digests. -/
inductive StorageError where
  | corruptionDetected (id : ObjectId) (details : String)
  | transactionFailed (reason : String)
  | refNotFound (name : String)
  | backend (msg : String)
  | serialization (msg : String)
deriving DecidableEq, Repr

/-- `MemoryStorage`: two maps, objects by id and references by name.  The
active-transaction registry is not represented: it is keyed by transaction
id, holds only staged data, and is invisible to every reader operation. -/
structure MemoryStorage where
  objects : List (ObjectId × GitObject)
  references : List (String × ReferenceTarget)
deriving DecidableEq, Repr

def MemoryStorage.new : MemoryStorage := ⟨[], []⟩

/-- `MemoryStorage::store_object`: refuse a hash mismatch with no side
effect, else insert. -/
def MemoryStorage.store_object (s : MemoryStorage) (id : ObjectId)
    (o : GitObject) : Except StorageError Unit × MemoryStorage :=
  if canonical_hash o ≠ id then
    (.error (.corruptionDetected id "Object hash mismatch"), s)
  else
    (.ok (), { s with objects := insertA id o s.objects })

/-- `MemoryStorage::load_object` (infallible in the model: the only Rust
failure is lock poisoning). -/
def MemoryStorage.load_object (s : MemoryStorage) (id : ObjectId) :
    Option GitObject :=
  lookupA id s.objects

/-- `MemoryStorage::list_refs`. -/
def MemoryStorage.list_refs (s : MemoryStorage) : List Reference :=
  s.references.map (fun p => ⟨p.1, p.2⟩)

/-- `MemoryStorage::update_ref`: always stores a direct target. -/
def MemoryStorage.update_ref (s : MemoryStorage) (name : String)
    (target : ObjectId) : MemoryStorage :=
  { s with references := insertA name (.direct target) s.references }

/-- Modelled from the spec: `MemoryStorage`'s `delete_ref` is not among
the provided sources (only the `Storage`-trait callers in
`repository.rs` and the SQLite implementation are).  Per the storage
contract — `delete_ref(name)`: ok, or `RefNotFound` — and in agreement
with the SQLite implementation, it removes the reference when present and
fails with `RefNotFound` (no side effect) when absent. -/
def MemoryStorage.delete_ref (s : MemoryStorage) (name : String) :
    Except StorageError Unit × MemoryStorage :=
  match lookupA name s.references with
  | none => (.error (.refNotFound name), s)
  | some _ => (.ok (), { s with references := removeA name s.references })

/-- `MemoryTransaction`: locally staged changes plus the completion flag
(the transaction id and registry handle carry no reader-visible state). -/
structure MemoryTransaction where
  staged_objects : List (ObjectId × GitObject)
  staged_refs : List (String × ReferenceTarget)
  completed : Bool
deriving DecidableEq, Repr

def MemoryTransaction.new : MemoryTransaction := ⟨[], [], false⟩

/-- `MemoryTransaction::store_object`: fail when completed, refuse a hash
mismatch, else stage locally (the shared storage is untouched). -/
def MemoryTransaction.store_object (tx : MemoryTransaction) (id : ObjectId)
    (o : GitObject) : Except StorageError Unit × MemoryTransaction :=
  if tx.completed then
    (.error (.transactionFailed "Transaction already completed"), tx)
  else if canonical_hash o ≠ id then
    (.error (.corruptionDetected id "Object hash mismatch"), tx)
  else
    (.ok (), { tx with staged_objects := insertA id o tx.staged_objects })

/-- `MemoryTransaction::update_ref`: fail when completed, else stage. -/
def MemoryTransaction.update_ref (tx : MemoryTransaction) (name : String)
    (target : ObjectId) : Except StorageError Unit × MemoryTransaction :=
  if tx.completed then
    (.error (.transactionFailed "Transaction already completed"), tx)
  else
    (.ok (),
      { tx with staged_refs := insertA name (.direct target) tx.staged_refs })

/-- Apply a staged map to a main map, one insert per staged pair, as the
commit loop of `MemoryTransaction::commit` does. -/
def applyInserts {κ α : Type} [DecidableEq κ] (staged : List (κ × α))
    (m : List (κ × α)) : List (κ × α) :=
  staged.foldl (fun acc p => insertA p.1 p.2 acc) m

/-- `MemoryTransaction::commit`: fail when completed, else apply all
staged objects and references to the shared storage in one critical
section. -/
def MemoryTransaction.commit (tx : MemoryTransaction) (s : MemoryStorage) :
    Except StorageError Unit × MemoryStorage :=
  if tx.completed then
    (.error (.transactionFailed "Transaction already completed"), s)
  else
    (.ok (),
      { objects := applyInserts tx.staged_objects s.objects,
        references := applyInserts tx.staged_refs s.references })

/-- `MemoryTransaction::rollback`: fail when completed, else discard the
staged changes; the shared storage is untouched. -/
def MemoryTransaction.rollback (tx : MemoryTransaction) (s : MemoryStorage) :
    Except StorageError Unit × MemoryStorage :=
  if tx.completed then
    (.error (.transactionFailed "Transaction already completed"), s)
  else
    (.ok (), s)

/-- A `refs`-table cell of the SQLite backend: either the 32 raw bytes of
an ObjectId or UTF-8 text. -/
inductive SqlTargetValue where
  | idBytes (id : ObjectId)
  | text (s : String)
deriving DecidableEq, Repr

/-- `SqliteStorage`: the `objects` table keyed by id with
`(object_type, data)` rows — `data` models the bincode-serialized bytes,
which determine the object — and the `refs` table keyed by name with
`(target_type, target_value)` rows. -/
structure SqliteStorage where
  objects : List (ObjectId × (ObjectType × GitObject))
  refs : List (String × (Nat × SqlTargetValue))
deriving DecidableEq, Repr

def SqliteStorage.new : SqliteStorage := ⟨[], []⟩

/-- `SqliteStorage::store_object`: refuse a hash mismatch with no side
effect, else serialize and `INSERT OR REPLACE`. -/
def SqliteStorage.store_object (s : SqliteStorage) (id : ObjectId)
    (o : GitObject) : Except StorageError Unit × SqliteStorage :=
  if canonical_hash o ≠ id then
    (.error (.corruptionDetected id "Object hash mismatch"), s)
  else
    (.ok (), { s with objects := insertA id (o.object_type, o) s.objects })

/-- `SqliteStorage::load_object`. -/
def SqliteStorage.load_object (s : SqliteStorage) (id : ObjectId) :
    Option GitObject :=
  (lookupA id s.objects).map Prod.snd

/-- `SqliteStorage::update_ref`: `INSERT OR REPLACE` with direct target
type `0`. -/
def SqliteStorage.update_ref (s : SqliteStorage) (name : String)
    (target : ObjectId) : SqliteStorage :=
  { s with refs := insertA name (0, .idBytes target) s.refs }

/-- `SqliteStorage::delete_ref`: `RefNotFound` when no row was deleted. -/
def SqliteStorage.delete_ref (s : SqliteStorage) (name : String) :
    Except StorageError Unit × SqliteStorage :=
  match lookupA name s.refs with
  | none => (.error (.refNotFound name), s)
  | some _ => (.ok (), { s with refs := removeA name s.refs })

/-- `StagedOperation` (sqlite.rs). -/
inductive StagedOperation where
  | storeObject (id : ObjectId) (object : GitObject)
  | updateRef (name : String) (target : ObjectId)
deriving DecidableEq, Repr

/-- `SqliteTransaction`: an ordered buffer of staged operations. -/
structure SqliteTransaction where
  staged_operations : List StagedOperation
  completed : Bool
deriving DecidableEq, Repr

def SqliteTransaction.new : SqliteTransaction := ⟨[], false⟩

/-- `SqliteTransaction::store_object`: fail when completed, refuse a hash
mismatch, else push onto the staged buffer. -/
def SqliteTransaction.store_object (tx : SqliteTransaction) (id : ObjectId)
    (o : GitObject) : Except StorageError Unit × SqliteTransaction :=
  if tx.completed then
    (.error (.transactionFailed "Transaction already completed"), tx)
  else if canonical_hash o ≠ id then
    (.error (.corruptionDetected id "Object hash mismatch"), tx)
  else
    (.ok (),
      { tx with staged_operations :=
          tx.staged_operations ++ [.storeObject id o] })

/-- `SqliteTransaction::update_ref`. -/
def SqliteTransaction.update_ref (tx : SqliteTransaction) (name : String)
    (target : ObjectId) : Except StorageError Unit × SqliteTransaction :=
  if tx.completed then
    (.error (.transactionFailed "Transaction already completed"), tx)
  else
    (.ok (),
      { tx with staged_operations :=
          tx.staged_operations ++ [.updateRef name target] })

/-- One staged operation executed inside the native SQL transaction of
`SqliteTransaction::commit`. -/
def applyStagedOp (s : SqliteStorage) : StagedOperation → SqliteStorage
  | .storeObject id o =>
    { s with objects := insertA id (o.object_type, o) s.objects }
  | .updateRef name target =>
    { s with refs := insertA name (0, .idBytes target) s.refs }

/-- `SqliteTransaction::commit`: fail when completed, else execute the
staged operations in order inside one native transaction. -/
def SqliteTransaction.commit (tx : SqliteTransaction) (s : SqliteStorage) :
    Except StorageError Unit × SqliteStorage :=
  if tx.completed then
    (.error (.transactionFailed "Transaction already completed"), s)
  else
    (.ok (), tx.staged_operations.foldl applyStagedOp s)

/-- `SqliteTransaction::rollback`: discard the staged buffer; the
database is untouched. -/
def SqliteTransaction.rollback (tx : SqliteTransaction) (s : SqliteStorage) :
    Except StorageError Unit × SqliteStorage :=
  if tx.completed then
    (.error (.transactionFailed "Transaction already completed"), s)
  else
    (.ok (), s)

/-- A transaction-script step, used to quantify over everything a caller
can stage through a transaction handle. -/
inductive TxOp where
  | storeObject (id : ObjectId) (o : GitObject)
  | updateRef (name : String) (target : ObjectId)
deriving DecidableEq, Repr

/-- Run one staging call against a memory transaction; the shared storage
component is carried alongside exactly as the source methods see it (they
mutate only the transaction). -/
def memTxStep (p : MemoryStorage × MemoryTransaction) (op : TxOp) :
    MemoryStorage × MemoryTransaction :=
  match op with
  | .storeObject id o => (p.1, (p.2.store_object id o).2)
  | .updateRef n t => (p.1, (p.2.update_ref n t).2)

def runTxOpsMem (ops : List TxOp) (p : MemoryStorage × MemoryTransaction) :
    MemoryStorage × MemoryTransaction :=
  ops.foldl memTxStep p

/-- Run one staging call against a SQLite transaction. -/
def sqlTxStep (p : SqliteStorage × SqliteTransaction) (op : TxOp) :
    SqliteStorage × SqliteTransaction :=
  match op with
  | .storeObject id o => (p.1, (p.2.store_object id o).2)
  | .updateRef n t => (p.1, (p.2.update_ref n t).2)

def runTxOpsSql (ops : List TxOp) (p : SqliteStorage × SqliteTransaction) :
    SqliteStorage × SqliteTransaction :=
  ops.foldl sqlTxStep p

/-! ## Repository and operation log (`gitnext-operations`) -/

/-- The repository with its operation log (`Repository` owning
`OperationLog`; both hold the same storage handle, flattened here).
`next_uuid` models the freshness of `Uuid::new_v4`. -/
structure Repo where
  store : MemoryStorage
  current_position : Nat
  log_chain : List Nat
  next_uuid : Nat
deriving DecidableEq, Repr

/-- Store an object under its computed content address.  Mirrors the
ubiquitous `store_object(&obj.canonical_hash(), &obj)?` calls: the hash
check always passes, so the propagated error branch is unreachable. -/
def storeComputed (s : MemoryStorage) (o : GitObject) : MemoryStorage :=
  (s.store_object (canonical_hash o) o).2

/-- `Repository::head`: resolve `HEAD`, following one symbolic hop, else
`RefNotFound`. -/
def Repository.head (s : MemoryStorage) : Except StorageError ObjectId :=
  match lookupA "HEAD" s.references with
  | some (.direct id) => .ok id
  | some (.symbolic target) =>
    match lookupA target s.references with
    | some (.direct id) => .ok id
    | _ => .error (.refNotFound "HEAD")
  | none => .error (.refNotFound "HEAD")

/-- `Repository::get_all_refs`: all direct references as a map. -/
def get_all_refs (s : MemoryStorage) : List (String × ObjectId) :=
  s.references.filterMap (fun p =>
    match p.2 with
    | .direct id => some (p.1, id)
    | .symbolic _ => none)

/-- `String::from_utf8_lossy` of a modelled payload.  Only UTF-8 payloads
are ever reachable through the current-branch tracking reference; the
value on the opaque encodings is immaterial. -/
def lossyUtf8 : BytesM → String
  | .utf8 s => s
  | _ => ""

/-- The symbolic-`HEAD` fallback of `Repository::get_current_branch`. -/
def fallbackCurrentBranch (s : MemoryStorage) : Option String :=
  match lookupA "HEAD" s.references with
  | some (.symbolic target) =>
    if target.startsWith "refs/heads/" then some (target.drop 11) else none
  | _ => none

/-- `Repository::get_current_branch`: read the branch name blob behind
`refs/gitnext/current-branch`, else fall back to a symbolic `HEAD`. -/
def Repository.get_current_branch (s : MemoryStorage) : Option String :=
  match lookupA "refs/gitnext/current-branch" s.references with
  | some (.direct branch_name_id) =>
    match lookupA branch_name_id s.objects with
    | some (.blob b) =>
      match b.content with
      | some content => some (lossyUtf8 content)
      | none => fallbackCurrentBranch s
    | _ => fallbackCurrentBranch s
  | _ => fallbackCurrentBranch s

/-- `OperationLog::update_log_chain_ref`: persist the
`(current_position, log_chain)` pair as a blob under `refs/logs/chain`. -/
def update_log_chain_ref (r : Repo) : Repo :=
  let chain_object :=
    GitObject.blob (Blob.new (.chainEnc r.current_position r.log_chain))
  let chain_id := canonical_hash chain_object
  let s1 := storeComputed r.store chain_object
  { r with store := s1.update_ref "refs/logs/chain" chain_id }

/-- `OperationLog::record`: persist the entry as a blob, point
`refs/logs/operations/<id>` at it, truncate the suffix when the cursor is
not at the tip, append, move the cursor to the tip, and persist the
chain. -/
def OperationLog.record (r : Repo) (entry : LogEntry) : Repo :=
  let log_object := GitObject.blob (Blob.new (.logEntryEnc entry))
  let log_id := canonical_hash log_object
  let s1 := storeComputed r.store log_object
  let s2 := s1.update_ref ("refs/logs/operations/" ++ toString entry.id) log_id
  let chain1 :=
    if r.current_position < r.log_chain.length then
      r.log_chain.take r.current_position
    else r.log_chain
  let chain2 := chain1 ++ [entry.id]
  update_log_chain_ref
    { r with store := s2, log_chain := chain2,
             current_position := chain2.length }

/-- `OperationLog::load_log_entry`: follow `refs/logs/operations/<id>` to
the blob and decode it; a payload that is not a bincode `LogEntry` is a
deserialization error, a missing reference or object is `None`. -/
def load_log_entry (s : MemoryStorage) (entry_id : Nat) :
    Except StorageError (Option LogEntry) :=
  match lookupA ("refs/logs/operations/" ++ toString entry_id) s.references with
  | some (.direct object_id) =>
    match lookupA object_id s.objects with
    | some (.blob b) =>
      match b.content with
      | some (.logEntryEnc e) => .ok (some e)
      | some _ => .error (.serialization "invalid LogEntry encoding")
      | none => .ok none
    | _ => .ok none
  | _ => .ok none

/-- The inverse application of `OperationLog::undo`, per operation kind. -/
def applyInverse (s : MemoryStorage) : Operation →
    Except StorageError Unit × MemoryStorage
  | .createBranch name _ _ => s.delete_ref ("refs/heads/" ++ name)
  | .deleteBranch name deleted_target _ =>
    (.ok (), s.update_ref ("refs/heads/" ++ name) deleted_target)
  | .switchBranch from_branch _ before_head _ =>
    let s1 := s.update_ref "HEAD" before_head
    if from_branch ≠ "HEAD" then
      let branch_name_object := GitObject.blob (Blob.new (.utf8 from_branch))
      let s2 := storeComputed s1 branch_name_object
      (.ok (), s2.update_ref "refs/gitnext/current-branch"
        (canonical_hash branch_name_object))
    else
      (.ok (), s1)
  | .commitOp before_head _ _ _ _ =>
    match before_head with
    | some prev_head =>
      let s1 := s.update_ref "HEAD" prev_head
      match Repository.get_current_branch s1 with
      | some branch_name =>
        (.ok (), s1.update_ref ("refs/heads/" ++ branch_name) prev_head)
      | none => (.ok (), s1)
    | none =>
      (.error (.backend "Cannot undo initial commit - no previous state"), s)
  | .mergeOp _ before_head _ =>
    let s1 := s.update_ref "HEAD" before_head
    match Repository.get_current_branch s1 with
    | some branch_name =>
      (.ok (), s1.update_ref ("refs/heads/" ++ branch_name) before_head)
    | none => (.ok (), s1)

/-- The forward re-application of `OperationLog::redo`, per operation
kind. -/
def applyForward (s : MemoryStorage) : Operation →
    Except StorageError Unit × MemoryStorage
  | .createBranch name target _ =>
    (.ok (), s.update_ref ("refs/heads/" ++ name) target)
  | .deleteBranch name _ _ => s.delete_ref ("refs/heads/" ++ name)
  | .switchBranch _ to_branch _ after_head =>
    let s1 := s.update_ref "HEAD" after_head
    let branch_name_object := GitObject.blob (Blob.new (.utf8 to_branch))
    let s2 := storeComputed s1 branch_name_object
    (.ok (), s2.update_ref "refs/gitnext/current-branch"
      (canonical_hash branch_name_object))
  | .commitOp _ after_head _ _ _ =>
    let s1 := s.update_ref "HEAD" after_head
    match Repository.get_current_branch s1 with
    | some branch_name =>
      (.ok (), s1.update_ref ("refs/heads/" ++ branch_name) after_head)
    | none => (.ok (), s1)
  | .mergeOp _ _ after_head =>
    let s1 := s.update_ref "HEAD" after_head
    match Repository.get_current_branch s1 with
    | some branch_name =>
      (.ok (), s1.update_ref ("refs/heads/" ++ branch_name) after_head)
    | none => (.ok (), s1)

/-- `OperationLog::undo`: `None` at the start; otherwise load the entry
below the cursor, apply its inverse, decrement the cursor, persist the
chain.  Every error path returns before the cursor moves.  (Out-of-range
indexing would panic in Rust; under the cursor invariant
`current_position ≤ log_chain.length` the `getD` default is never
used.) -/
def OperationLog.undo (r : Repo) :
    Except StorageError (Option Operation) × Repo :=
  if r.current_position = 0 then
    (.ok none, r)
  else
    match load_log_entry r.store
        (r.log_chain.getD (r.current_position - 1) 0) with
    | .error e => (.error e, r)
    | .ok none => (.error (.backend "Log entry not found"), r)
    | .ok (some entry) =>
      match applyInverse r.store entry.operation with
      | (.error e, s1) => (.error e, { r with store := s1 })
      | (.ok (), s1) =>
        (.ok (some entry.operation),
          update_log_chain_ref
            { r with store := s1,
                     current_position := r.current_position - 1 })

/-- `OperationLog::redo`: `None` at the tip; otherwise load the entry at
the cursor, re-apply its forward effect, increment the cursor, persist
the chain. -/
def OperationLog.redo (r : Repo) :
    Except StorageError (Option Operation) × Repo :=
  if r.current_position ≥ r.log_chain.length then
    (.ok none, r)
  else
    match load_log_entry r.store
        (r.log_chain.getD r.current_position 0) with
    | .error e => (.error e, r)
    | .ok none => (.error (.backend "Log entry not found"), r)
    | .ok (some entry) =>
      match applyForward r.store entry.operation with
      | (.error e, s1) => (.error e, { r with store := s1 })
      | (.ok (), s1) =>
        (.ok (some entry.operation),
          update_log_chain_ref
            { r with store := s1,
                     current_position := r.current_position + 1 })

/-- `OperationLog::compact`: drop the oldest entries beyond
`keep_entries` and shift the cursor, flooring it at zero. -/
def OperationLog.compact (r : Repo) (keep_entries : Nat) : Repo :=
  if r.log_chain.length ≤ keep_entries then r
  else
    let remove_count := r.log_chain.length - keep_entries
    let pos2 :=
      if remove_count < r.current_position then
        r.current_position - remove_count
      else 0
    update_log_chain_ref
      { r with log_chain := r.log_chain.drop remove_count,
               current_position := pos2 }

/-- `Repository::create_branch`: update `refs/heads/<name>` and record a
`CreateBranch` entry.  The source performs no name validation, no
target-existence check, and no pre-existence check. -/
def Repository.create_branch (r : Repo) (name : String) (target : ObjectId) :
    Except StorageError Unit × Repo :=
  let branch_ref := "refs/heads/" ++ name
  let before_refs := get_all_refs r.store
  let s1 := r.store.update_ref branch_ref target
  let after_refs := get_all_refs s1
  let entry : LogEntry :=
    { id := r.next_uuid, timestamp := 0,
      operation := .createBranch name target before_refs,
      before_state := { head := (Repository.head s1).toOption,
                        refs := before_refs },
      after_state := { head := (Repository.head s1).toOption,
                       refs := after_refs },
      command := "branch", args := [name] }
  (.ok (),
    OperationLog.record
      { r with store := s1, next_uuid := r.next_uuid + 1 } entry)

/-- `Repository::switch_branch`: resolve the branch, point `HEAD` at its
target, store the branch-name blob behind the tracking reference, record
a `SwitchBranch` entry (with `from_branch` hard-coded to `"HEAD"`). -/
def Repository.switch_branch (r : Repo) (branch_name : String) :
    Except StorageError Unit × Repo :=
  let branch_ref := "refs/heads/" ++ branch_name
  match Repository.head r.store with
  | .error e => (.error e, r)
  | .ok before_head =>
    match lookupA branch_ref r.store.references with
    | some (.direct target_commit) =>
      let s1 := r.store.update_ref "HEAD" target_commit
      let branch_name_object := GitObject.blob (Blob.new (.utf8 branch_name))
      let s2 := storeComputed s1 branch_name_object
      let s3 := s2.update_ref "refs/gitnext/current-branch"
        (canonical_hash branch_name_object)
      let entry : LogEntry :=
        { id := r.next_uuid, timestamp := 0,
          operation := .switchBranch "HEAD" branch_name before_head
            target_commit,
          before_state := { head := some before_head, refs := get_all_refs s3 },
          after_state := { head := some target_commit,
                           refs := get_all_refs s3 },
          command := "switch", args := [branch_name] }
      (.ok (),
        OperationLog.record
          { r with store := s3, next_uuid := r.next_uuid + 1 } entry)
    | _ => (.error (.refNotFound branch_ref), r)

/-- `Repository::delete_branch`: resolve the branch, refuse when it is
the current branch, delete the reference, record a `DeleteBranch`
entry. -/
def Repository.delete_branch (r : Repo) (branch_name : String) :
    Except StorageError Unit × Repo :=
  let branch_ref := "refs/heads/" ++ branch_name
  let before_refs := get_all_refs r.store
  match lookupA branch_ref r.store.references with
  | some (.direct deleted_target) =>
    if Repository.get_current_branch r.store = some branch_name then
      (.error (.backend
        ("Cannot delete current branch '" ++ branch_name ++ "'")), r)
    else
      match r.store.delete_ref branch_ref with
      | (.error e, s1) => (.error e, { r with store := s1 })
      | (.ok (), s1) =>
        let after_refs := get_all_refs s1
        let entry : LogEntry :=
          { id := r.next_uuid, timestamp := 0,
            operation := .deleteBranch branch_name deleted_target before_refs,
            before_state := { head := (Repository.head s1).toOption,
                              refs := before_refs },
            after_state := { head := (Repository.head s1).toOption,
                             refs := after_refs },
            command := "branch", args := ["-d", branch_name] }
        (.ok (),
          OperationLog.record
            { r with store := s1, next_uuid := r.next_uuid + 1 } entry)
  | _ => (.error (.refNotFound branch_ref), r)

/-- `Repository::commit`: store the commit object, advance `HEAD`, also
advance the current branch reference when on a branch, record a `Commit`
entry. -/
def Repository.commitRepo (r : Repo) (tree : ObjectId)
    (parents : List ObjectId) (author committer : Signature)
    (message : String) : Except StorageError ObjectId × Repo :=
  let before_head := (Repository.head r.store).toOption
  let commit_object :=
    GitObject.commit ⟨tree, parents, author, committer, message⟩
  let commit_id := canonical_hash commit_object
  let s1 := storeComputed r.store commit_object
  let s2 := s1.update_ref "HEAD" commit_id
  let s3 :=
    match Repository.get_current_branch s2 with
    | some branch_name =>
      s2.update_ref ("refs/heads/" ++ branch_name) commit_id
    | none => s2
  let entry : LogEntry :=
    { id := r.next_uuid, timestamp := 0,
      operation := .commitOp before_head commit_id tree message parents,
      before_state := { head := before_head, refs := get_all_refs s3 },
      after_state := { head := some commit_id, refs := get_all_refs s3 },
      command := "commit", args := ["-m", message] }
  (.ok commit_id,
    OperationLog.record
      { r with store := s3, next_uuid := r.next_uuid + 1 } entry)

/-- `Repository::init`: store the empty tree and the initial commit, set
`refs/heads/main` and `HEAD`, record the initial `Commit` entry (whose
`before_head` is empty). -/
def Repository.init (s : MemoryStorage) : Repo :=
  let empty_tree := GitObject.tree (Tree.new [])
  let tree_id := canonical_hash empty_tree
  let s1 := storeComputed s empty_tree
  let author : Signature :=
    { name := "GitNext", email := "gitnext@system",
      timestamp := 0, timezone_offset := 0 }
  let initial_commit := GitObject.commit
    { tree := tree_id, parents := [], author := author, committer := author,
      message := "Initial commit" }
  let commit_id := canonical_hash initial_commit
  let s2 := storeComputed s1 initial_commit
  let s3 := s2.update_ref "refs/heads/main" commit_id
  let s4 := s3.update_ref "HEAD" commit_id
  let entry : LogEntry :=
    { id := 0, timestamp := 0,
      operation := .commitOp none commit_id tree_id "Initial commit" [],
      before_state := { head := none, refs := [] },
      after_state := { head := some commit_id,
                       refs := [("refs/heads/main", commit_id),
                                ("HEAD", commit_id)] },
      command := "init", args := [] }
  OperationLog.record
    { store := s4, current_position := 0, log_chain := [], next_uuid := 1 }
    entry

/-! ## Supporting lemmas -/

/-- Left-biased choice on options (the visibility combinator: staged
value first, else the pre-existing one). -/
def orO {α : Type} : Option α → Option α → Option α
  | some v, _ => some v
  | none, b => b

@[simp] theorem orO_none {α : Type} (b : Option α) : orO none b = b := rfl

@[simp] theorem orO_some {α : Type} (v : α) (b : Option α) :
    orO (some v) b = some v := rfl

theorem orO_assoc {α : Type} (a b c : Option α) :
    orO (orO a b) c = orO a (orO b c) := by
  cases a <;> rfl

theorem orO_map {α β : Type} (f : α → β) (a b : Option α) :
    (orO a b).map f = orO (a.map f) (b.map f) := by
  cases a <;> rfl

theorem lookupA_append {κ α : Type} [DecidableEq κ] (k : κ)
    (l1 l2 : List (κ × α)) :
    lookupA k (l1 ++ l2) = orO (lookupA k l1) (lookupA k l2) := by
  induction l1 with
  | nil => rfl
  | cons p rest ih =>
    obtain ⟨k2, v⟩ := p
    by_cases h : k2 = k <;> simp [lookupA, h, ih]

theorem lookupA_applyInserts {κ α : Type} [DecidableEq κ] (k : κ)
    (staged m : List (κ × α)) :
    lookupA k (applyInserts staged m) =
      orO (lookupA k staged.reverse) (lookupA k m) := by
  induction staged generalizing m with
  | nil => rfl
  | cons p rest ih =>
    obtain ⟨k2, v⟩ := p
    have step : applyInserts ((k2, v) :: rest) m =
        applyInserts rest (insertA k2 v m) := rfl
    rw [step, ih, List.reverse_cons, lookupA_append, orO_assoc]
    congr 1
    rw [lookupA_insertA]
    by_cases h : k2 = k <;> simp [lookupA, h]

theorem memTx_store_object_completed (tx : MemoryTransaction) (id : ObjectId)
    (o : GitObject) : (tx.store_object id o).2.completed = tx.completed := by
  unfold MemoryTransaction.store_object
  split_ifs <;> rfl

theorem memTx_update_ref_completed (tx : MemoryTransaction) (n : String)
    (t : ObjectId) : (tx.update_ref n t).2.completed = tx.completed := by
  unfold MemoryTransaction.update_ref
  split_ifs <;> rfl

theorem runTxOpsMem_fst (ops : List TxOp) (s : MemoryStorage)
    (tx : MemoryTransaction) : (runTxOpsMem ops (s, tx)).1 = s := by
  induction ops generalizing tx with
  | nil => rfl
  | cons op rest ih =>
    cases op <;> exact ih _

theorem runTxOpsMem_completed (ops : List TxOp) (s : MemoryStorage)
    (tx : MemoryTransaction) :
    (runTxOpsMem ops (s, tx)).2.completed = tx.completed := by
  induction ops generalizing tx with
  | nil => rfl
  | cons op rest ih =>
    cases op with
    | storeObject id o =>
      exact (ih _).trans (memTx_store_object_completed tx id o)
    | updateRef n t =>
      exact (ih _).trans (memTx_update_ref_completed tx n t)

theorem sqlTx_store_object_completed (tx : SqliteTransaction) (id : ObjectId)
    (o : GitObject) : (tx.store_object id o).2.completed = tx.completed := by
  unfold SqliteTransaction.store_object
  split_ifs <;> rfl

theorem sqlTx_update_ref_completed (tx : SqliteTransaction) (n : String)
    (t : ObjectId) : (tx.update_ref n t).2.completed = tx.completed := by
  unfold SqliteTransaction.update_ref
  split_ifs <;> rfl

theorem runTxOpsSql_fst (ops : List TxOp) (s : SqliteStorage)
    (tx : SqliteTransaction) : (runTxOpsSql ops (s, tx)).1 = s := by
  induction ops generalizing tx with
  | nil => rfl
  | cons op rest ih =>
    cases op <;> exact ih _

theorem runTxOpsSql_completed (ops : List TxOp) (s : SqliteStorage)
    (tx : SqliteTransaction) :
    (runTxOpsSql ops (s, tx)).2.completed = tx.completed := by
  induction ops generalizing tx with
  | nil => rfl
  | cons op rest ih =>
    cases op with
    | storeObject id o =>
      exact (ih _).trans (sqlTx_store_object_completed tx id o)
    | updateRef n t =>
      exact (ih _).trans (sqlTx_update_ref_completed tx n t)

/-- The staged rows a list of SQLite staged operations contributes to the
objects table. -/
def stagedObjectsRows : List StagedOperation →
    List (ObjectId × (ObjectType × GitObject))
  | [] => []
  | .storeObject id o :: rest => (id, (o.object_type, o)) :: stagedObjectsRows rest
  | .updateRef _ _ :: rest => stagedObjectsRows rest

/-- The staged rows a list of SQLite staged operations contributes to the
refs table. -/
def stagedRefsRows : List StagedOperation →
    List (String × (Nat × SqlTargetValue))
  | [] => []
  | .storeObject _ _ :: rest => stagedRefsRows rest
  | .updateRef n t :: rest => (n, (0, .idBytes t)) :: stagedRefsRows rest

theorem sql_apply_objects (l : List StagedOperation) (s : SqliteStorage) :
    (l.foldl applyStagedOp s).objects =
      applyInserts (stagedObjectsRows l) s.objects := by
  induction l generalizing s with
  | nil => rfl
  | cons op rest ih =>
    cases op with
    | storeObject id o =>
      simpa [stagedObjectsRows, applyInserts, applyStagedOp] using
        ih { s with objects := insertA id (o.object_type, o) s.objects }
    | updateRef n t =>
      simpa [stagedObjectsRows, applyInserts, applyStagedOp] using
        ih { s with refs := insertA n (0, .idBytes t) s.refs }

theorem sql_apply_refs (l : List StagedOperation) (s : SqliteStorage) :
    (l.foldl applyStagedOp s).refs =
      applyInserts (stagedRefsRows l) s.refs := by
  induction l generalizing s with
  | nil => rfl
  | cons op rest ih =>
    cases op with
    | storeObject id o =>
      simpa [stagedRefsRows, applyInserts, applyStagedOp] using
        ih { s with objects := insertA id (o.object_type, o) s.objects }
    | updateRef n t =>
      simpa [stagedRefsRows, applyInserts, applyStagedOp] using
        ih { s with refs := insertA n (0, .idBytes t) s.refs }

/-! ## Claim theorems -/

/-- C2: for every object `o` and every `id ≠ content_address(o)`,
`store_object(id, o)` on the in-memory backend and on the SQLite backend
returns the hash-mismatch (`CorruptionDetected`) error and leaves the
stored objects and references exactly as they were. -/
theorem c2_address_refusal (s : MemoryStorage) (sq : SqliteStorage)
    (id : ObjectId) (o : GitObject) (h : id ≠ canonical_hash o) :
    s.store_object id o =
      (.error (.corruptionDetected id "Object hash mismatch"), s) ∧
    sq.store_object id o =
      (.error (.corruptionDetected id "Object hash mismatch"), sq) := by
  have h2 : canonical_hash o ≠ id := fun hh => h hh.symm
  constructor
  · unfold MemoryStorage.store_object
    rw [if_pos h2]
  · unfold SqliteStorage.store_object
    rw [if_pos h2]

/-- Witness for C2 at a concrete mismatched pair. -/
theorem c2_address_refusal_witness :
    MemoryStorage.new.store_object ⟨.enil⟩ (.blob ⟨none, 0⟩) =
      (.error (.corruptionDetected ⟨.enil⟩ "Object hash mismatch"),
        MemoryStorage.new) ∧
    SqliteStorage.new.store_object ⟨.enil⟩ (.blob ⟨none, 0⟩) =
      (.error (.corruptionDetected ⟨.enil⟩ "Object hash mismatch"),
        SqliteStorage.new) :=
  c2_address_refusal MemoryStorage.new SqliteStorage.new ⟨.enil⟩
    (.blob ⟨none, 0⟩) (by decide)

/-- C3: on both backends, everything staged through a transaction's
`store_object` and `update_ref` is invisible to storage readers before
commit (the storage component is untouched by any staging sequence);
rollback returns the storage exactly as it was; commit succeeds and makes
every staged effect visible at once — each object and reference reads as
its most recently staged value, falling back to the pre-transaction
value. -/
theorem c3_transaction_atomicity (ops : List TxOp) :
    (∀ s : MemoryStorage,
      (runTxOpsMem ops (s, MemoryTransaction.new)).1 = s ∧
      MemoryTransaction.rollback (runTxOpsMem ops (s, .new)).2 s =
        (.ok (), s) ∧
      (MemoryTransaction.commit (runTxOpsMem ops (s, .new)).2 s).1 =
        .ok () ∧
      (∀ id : ObjectId,
        ((MemoryTransaction.commit (runTxOpsMem ops (s, .new)).2 s).2).load_object id =
          orO (lookupA id ((runTxOpsMem ops (s, .new)).2.staged_objects).reverse)
            (s.load_object id)) ∧
      (∀ name : String,
        lookupA name
            ((MemoryTransaction.commit (runTxOpsMem ops (s, .new)).2 s).2).references =
          orO (lookupA name ((runTxOpsMem ops (s, .new)).2.staged_refs).reverse)
            (lookupA name s.references))) ∧
    (∀ s : SqliteStorage,
      (runTxOpsSql ops (s, SqliteTransaction.new)).1 = s ∧
      SqliteTransaction.rollback (runTxOpsSql ops (s, .new)).2 s =
        (.ok (), s) ∧
      (SqliteTransaction.commit (runTxOpsSql ops (s, .new)).2 s).1 =
        .ok () ∧
      (∀ id : ObjectId,
        ((SqliteTransaction.commit (runTxOpsSql ops (s, .new)).2 s).2).load_object id =
          orO ((lookupA id
              (stagedObjectsRows (runTxOpsSql ops (s, .new)).2.staged_operations).reverse).map
              Prod.snd)
            (s.load_object id)) ∧
      (∀ name : String,
        lookupA name
            ((SqliteTransaction.commit (runTxOpsSql ops (s, .new)).2 s).2).refs =
          orO (lookupA name
              (stagedRefsRows (runTxOpsSql ops (s, .new)).2.staged_operations).reverse)
            (lookupA name s.refs))) := by
  constructor
  · intro s
    have hc : (runTxOpsMem ops (s, MemoryTransaction.new)).2.completed = false :=
      runTxOpsMem_completed ops s MemoryTransaction.new
    refine ⟨runTxOpsMem_fst ops s _, ?_, ?_, ?_, ?_⟩
    · unfold MemoryTransaction.rollback
      rw [hc]
      rfl
    · unfold MemoryTransaction.commit
      rw [hc]
      rfl
    · intro id
      unfold MemoryTransaction.commit
      rw [hc]
      simp only [Bool.false_eq_true, if_false]
      unfold MemoryStorage.load_object
      exact lookupA_applyInserts id _ s.objects
    · intro name
      unfold MemoryTransaction.commit
      rw [hc]
      simp only [Bool.false_eq_true, if_false]
      exact lookupA_applyInserts name _ s.references
  · intro s
    have hc : (runTxOpsSql ops (s, SqliteTransaction.new)).2.completed = false :=
      runTxOpsSql_completed ops s SqliteTransaction.new
    refine ⟨runTxOpsSql_fst ops s _, ?_, ?_, ?_, ?_⟩
    · unfold SqliteTransaction.rollback
      rw [hc]
      rfl
    · unfold SqliteTransaction.commit
      rw [hc]
      rfl
    · intro id
      unfold SqliteTransaction.commit
      rw [hc]
      simp only [Bool.false_eq_true, if_false]
      unfold SqliteStorage.load_object
      rw [sql_apply_objects, lookupA_applyInserts, orO_map]
    · intro name
      unfold SqliteTransaction.commit
      rw [hc]
      simp only [Bool.false_eq_true, if_false]
      rw [sql_apply_refs, lookupA_applyInserts]

/-- Recognizer for legacy-digest tokens in the emitted byte stream. -/
def isDigestToken : GitByte → Bool
  | .digestSha1Of _ => true
  | .digestSha256Of _ => true
  | _ => false

theorem mem_strBytes_no_digest (s : String) :
    ∀ b ∈ strBytes s, isDigestToken b = false := by
  intro b hb
  obtain ⟨c, _, rfl⟩ := List.mem_map.1 hb
  rfl

theorem mem_treeEntryBytes_no_digest (e : TreeEntry) :
    ∀ b ∈ treeEntryBytes e, isDigestToken b = false := by
  intro b hb
  simp only [treeEntryBytes, List.mem_append, List.mem_singleton] at hb
  rcases hb with (((h | h) | h) | h) | h
  · exact mem_strBytes_no_digest _ b h
  · subst h; rfl
  · exact mem_strBytes_no_digest _ b h
  · subst h; rfl
  · subst h; rfl

/-- Concrete child and tree for the C5 instance. -/
def c5Child : GitObject := .blob (Blob.new (.utf8 "x"))

def c5Entry : TreeEntry :=
  { name := "a", mode := .normal, hash := canonical_hash c5Child,
    entry_type := .blob }

def c5Tree : Tree := ⟨[c5Entry]⟩

/-- C5 counterexample: at a concrete one-entry tree, the legacy tree
serialization embeds the raw bytes of the child's ObjectId, and no
legacy-digest bytes occur anywhere in the output — so the claim that each
entry embeds the recursively computed legacy digest of the child (and not
the ObjectId) is false. -/
theorem c5_tree_embeds_objectid :
    GitByte.oid (canonical_hash c5Child) ∈ serialize_tree_to_git c5Tree ∧
    (serialize_tree_to_git c5Tree).all (fun b => !isDigestToken b) = true := by
  constructor
  · decide
  · decide

/-- C5 amended: for every tree, the legacy serialization embeds at each
entry the child's 32-byte ObjectId (the raw bytes of `entry.hash`), and
emits no legacy-digest bytes at all. -/
theorem c5_tree_child_field_is_objectid (t : Tree) :
    (∀ e ∈ t.entries, GitByte.oid e.hash ∈ serialize_tree_to_git t) ∧
    (serialize_tree_to_git t).all (fun b => !isDigestToken b) = true := by
  constructor
  · intro e he
    simp only [serialize_tree_to_git]
    refine List.mem_append.2 (.inr ?_)
    refine List.mem_flatten.2 ⟨treeEntryBytes e, List.mem_map_of_mem _ he, ?_⟩
    simp [treeEntryBytes]
  · refine List.all_eq_true.2 ?_
    intro b hb
    rw [Bool.not_eq_true']
    simp only [serialize_tree_to_git, List.mem_append, List.mem_singleton]
      at hb
    rcases hb with (h | h) | h
    · exact mem_strBytes_no_digest _ b h
    · subst h; rfl
    · obtain ⟨l, hl, hbl⟩ := List.mem_flatten.1 h
      obtain ⟨e, _, rfl⟩ := List.mem_map.1 hl
      exact mem_treeEntryBytes_no_digest e b hbl

/-- Witness for the C5 amended theorem at the concrete tree. -/
theorem c5_tree_child_field_is_objectid_witness :
    GitByte.oid c5Entry.hash ∈ serialize_tree_to_git c5Tree :=
  (c5_tree_child_field_is_objectid c5Tree).1 c5Entry (by decide)

/-- The concrete blob of the C6 instance (the same value the crate's own
tests hash). -/
def c6Blob : GitObject := .blob (Blob.new (.utf8 "hello world"))

/-- Its legacy Git serialization: `"blob 11\0hello world"`. -/
def c6GitBytes : List GitByte :=
  strBytes "blob 11" ++ [nulByte] ++ strBytes "hello world"

/-- C6: at the concrete blob, deriving SHA-1 first and then requesting
SHA-256 from the same deriver returns the cached SHA-1 digest — not
`hash(SHA-256, to_legacy_bytes(o))` — because the cache is keyed by
ObjectId only, ignoring the algorithm.  This contradicts the crate's own
`prop_git_export_fidelity` property test. -/
theorem c6_cache_returns_wrong_algorithm :
    serialize_to_git_format c6Blob = .ok c6GitBytes ∧
    (derive_git_hash CompatHashDeriver.new c6Blob .sha1).1 =
      .ok (GitHash.fromGitBytes c6GitBytes .sha1) ∧
    (derive_git_hash
        (derive_git_hash CompatHashDeriver.new c6Blob .sha1).2
        c6Blob .sha256).1 =
      .ok (GitHash.fromGitBytes c6GitBytes .sha1) ∧
    GitHash.fromGitBytes c6GitBytes .sha1 ≠
      GitHash.fromGitBytes c6GitBytes .sha256 := by
  refine ⟨rfl, rfl, rfl, by decide⟩

/-- The concrete signature of the C7 instance: offset −300 minutes. -/
def c7Sig : Signature :=
  { name := "A", email := "a@b", timestamp := 0, timezone_offset := -300 }

/-- C7 counterexample: an offset of −300 minutes renders as `-0300` (the
raw minutes, zero-padded), not `-0500` (the hours-and-minutes form the
claim requires). -/
theorem c7_offset_not_hhmm :
    format_signature c7Sig = "A <a@b> 0 -0300" ∧
    format_signature c7Sig ≠ "A <a@b> 0 -0500" := by
  refine ⟨by decide, by decide⟩

/-- C7 amended: the legacy serialization renders a signature as
`"Name <email> <unix-seconds> S"` where `S` is the `{:+05}` formatting of
the offset-in-minutes: explicit sign, zero fill to width five, and the
raw minutes value with no conversion to hours and minutes (0 → `+0000`,
−300 → `-0300`, 120 → `+0120`). -/
theorem c7_signature_format (sig : Signature) :
    format_signature sig =
      sig.name ++ " <" ++ sig.email ++ "> " ++ toString sig.timestamp ++
        " " ++ fmtPlus05 sig.timezone_offset ∧
    fmtPlus05 0 = "+0000" ∧
    fmtPlus05 (-300) = "-0300" ∧
    fmtPlus05 300 = "+0300" ∧
    fmtPlus05 120 = "+0120" ∧
    fmtPlus05 1440 = "+1440" ∧
    fmtPlus05 (-300) ≠ "-0500" ∧
    fmtPlus05 120 ≠ "+0200" := by
  refine ⟨rfl, by decide, by decide, by decide, by decide, by decide,
    by decide, by decide⟩

/-- A tree whose entries are not sorted, built directly (as any caller
can, the field being public) rather than through `Tree::new`. -/
def c9BadTree : Tree :=
  ⟨[{ name := "b", mode := .normal, hash := ⟨.enat 1⟩, entry_type := .blob },
    { name := "a", mode := .normal, hash := ⟨.enat 2⟩, entry_type := .blob }]⟩

/-- C9 counterexample: both backends accept a tree whose entry names are
not strictly ascending — `store_object` checks only the content address,
never sortedness. -/
theorem c9_store_accepts_unsorted_tree :
    (MemoryStorage.new.store_object (canonical_hash (.tree c9BadTree))
        (.tree c9BadTree)).1 = .ok () ∧
    (SqliteStorage.new.store_object (canonical_hash (.tree c9BadTree))
        (.tree c9BadTree)).1 = .ok () ∧
    c9BadTree.entries.map TreeEntry.name = ["b", "a"] ∧
    ¬ (("b" : String) < "a") := by
  refine ⟨rfl, rfl, rfl, ?_⟩
  rw [String.lt_iff_toList_lt]
  decide

theorem treeSortedCheck_chain (es : List TreeEntry)
    (h : treeSortedCheck es = .ok ()) :
    es.Chain' (fun a b => a.name < b.name) := by
  induction es with
  | nil => simp
  | cons a rest ih =>
    cases rest with
    | nil => simp
    | cons b rest2 =>
      simp only [treeSortedCheck] at h
      by_cases hge : a.name ≥ b.name
      · rw [if_pos hge] at h
        exact absurd h (by simp)
      · rw [if_neg hge] at h
        exact List.chain'_cons.2 ⟨lt_of_not_le hge, ih h⟩

/-- C9 amended: sortedness is guaranteed by the constructors and checked
by the validator, but not by storage: `Tree::new` sorts entries into
nondecreasing (not strict) name order, and any tree passing
`Tree::validate` has strictly ascending names; `store_object` itself
enforces neither (see the counterexample). -/
theorem c9_sortedness_at_construction (entries : List TreeEntry) (t : Tree)
    (h : Tree.validate t = .ok ()) :
    (Tree.new entries).entries.Pairwise (fun a b => a.name ≤ b.name) ∧
    t.entries.Chain' (fun a b => a.name < b.name) := by
  constructor
  · haveI htot : IsTotal TreeEntry (fun a b => a.name ≤ b.name) :=
      ⟨fun a b => le_total a.name b.name⟩
    haveI htrans : IsTrans TreeEntry (fun a b => a.name ≤ b.name) :=
      ⟨fun _ _ _ hab hbc => le_trans hab hbc⟩
    exact List.sorted_insertionSort _ entries
  · have hts : treeSortedCheck t.entries = .ok () := by
      unfold Tree.validate at h
      cases hc : treeSortedCheck t.entries with
      | error e => rw [hc] at h; cases h
      | ok u => cases u; rfl
    exact treeSortedCheck_chain t.entries hts

/-- Witness for the C9 amended theorem at concrete inputs. -/
theorem c9_sortedness_at_construction_witness :
    (Tree.new [c5Entry]).entries.Pairwise (fun a b => a.name ≤ b.name) ∧
    (Tree.mk []).entries.Chain' (fun a b => a.name < b.name) :=
  c9_sortedness_at_construction [c5Entry] ⟨[]⟩ rfl

/-! Helper lemmas for the repository-level claims. -/

theorem append_ne_of_ne_at (p q x y : String) (i : Nat)
    (hip : i < p.data.length) (hiq : i < q.data.length)
    (hne : p.data.get ⟨i, hip⟩ ≠ q.data.get ⟨i, hiq⟩) :
    p ++ x ≠ q ++ y := by
  intro h
  apply hne
  have hdata : p.data ++ x.data = q.data ++ y.data := by
    have h2 := congrArg String.data h
    rwa [String.data_append, String.data_append] at h2
  have hi1 : i < (p.data ++ x.data).length := by
    rw [List.length_append]; omega
  have hi2 : i < (q.data ++ y.data).length := by
    rw [List.length_append]; omega
  have h3 : (p.data ++ x.data).get? i = (q.data ++ y.data).get? i := by
    rw [hdata]
  rw [List.get?_eq_get hi1, List.get?_eq_get hi2] at h3
  have h4 := Option.some.inj h3
  rw [List.get_append i hip, List.get_append i hiq] at h4
  exact h4

theorem branch_ref_ne_chain (name : String) :
    "refs/heads/" ++ name ≠ "refs/logs/chain" := by
  have h := append_ne_of_ne_at "refs/heads/" "refs/logs/chain" name "" 5
    (by decide) (by decide) (by decide)
  simpa using h

theorem branch_ref_ne_oplog (name u : String) :
    "refs/heads/" ++ name ≠ "refs/logs/operations/" ++ u :=
  append_ne_of_ne_at "refs/heads/" "refs/logs/operations/" name u 5
    (by decide) (by decide) (by decide)

theorem store_object_self (s : MemoryStorage) (o : GitObject) :
    s.store_object (canonical_hash o) o =
      (.ok (), { s with objects := insertA (canonical_hash o) o s.objects }) := by
  unfold MemoryStorage.store_object
  rw [if_neg (fun hh => hh rfl)]

theorem storeComputed_eq (s : MemoryStorage) (o : GitObject) :
    storeComputed s o =
      { s with objects := insertA (canonical_hash o) o s.objects } := by
  unfold storeComputed
  rw [store_object_self]

theorem ulcr_position (r : Repo) :
    (update_log_chain_ref r).current_position = r.current_position := rfl

theorem ulcr_chain (r : Repo) :
    (update_log_chain_ref r).log_chain = r.log_chain := rfl

/-- Exhaustive behaviour of `undo` on the log state: `None` at zero with
nothing changed; success decrementing the cursor and keeping the chain;
or an error leaving both untouched. -/
theorem undo_cases (r : Repo) :
    (OperationLog.undo r = (.ok none, r) ∧ r.current_position = 0) ∨
    (∃ op, (OperationLog.undo r).1 = .ok (some op) ∧
      r.current_position ≠ 0 ∧
      (OperationLog.undo r).2.current_position = r.current_position - 1 ∧
      (OperationLog.undo r).2.log_chain = r.log_chain) ∨
    (∃ e, (OperationLog.undo r).1 = .error e ∧
      (OperationLog.undo r).2.current_position = r.current_position ∧
      (OperationLog.undo r).2.log_chain = r.log_chain) := by
  unfold OperationLog.undo
  by_cases h0 : r.current_position = 0
  · rw [if_pos h0]
    exact .inl ⟨rfl, h0⟩
  · rw [if_neg h0]
    cases hl : load_log_entry r.store
        (r.log_chain.getD (r.current_position - 1) 0) with
    | error e => exact .inr (.inr ⟨e, rfl, rfl, rfl⟩)
    | ok oe =>
      cases oe with
      | none => exact .inr (.inr ⟨_, rfl, rfl, rfl⟩)
      | some entry =>
        dsimp only
        cases hres : applyInverse r.store entry.operation with
        | mk res s1 =>
          cases res with
          | error e => exact .inr (.inr ⟨e, rfl, rfl, rfl⟩)
          | ok u =>
            cases u
            exact .inr (.inl ⟨entry.operation, rfl, h0, rfl, rfl⟩)

/-- Exhaustive behaviour of `redo` on the log state. -/
theorem redo_cases (r : Repo) :
    (OperationLog.redo r = (.ok none, r) ∧
      r.log_chain.length ≤ r.current_position) ∨
    (∃ op, (OperationLog.redo r).1 = .ok (some op) ∧
      r.current_position < r.log_chain.length ∧
      (OperationLog.redo r).2.current_position = r.current_position + 1 ∧
      (OperationLog.redo r).2.log_chain = r.log_chain) ∨
    (∃ e, (OperationLog.redo r).1 = .error e ∧
      (OperationLog.redo r).2.current_position = r.current_position ∧
      (OperationLog.redo r).2.log_chain = r.log_chain) := by
  unfold OperationLog.redo
  by_cases h0 : r.current_position ≥ r.log_chain.length
  · rw [if_pos h0]
    exact .inl ⟨rfl, h0⟩
  · rw [if_neg h0]
    cases hl : load_log_entry r.store
        (r.log_chain.getD r.current_position 0) with
    | error e => exact .inr (.inr ⟨e, rfl, rfl, rfl⟩)
    | ok oe =>
      cases oe with
      | none => exact .inr (.inr ⟨_, rfl, rfl, rfl⟩)
      | some entry =>
        dsimp only
        cases hres : applyForward r.store entry.operation with
        | mk res s1 =>
          cases res with
          | error e => exact .inr (.inr ⟨e, rfl, rfl, rfl⟩)
          | ok u =>
            cases u
            exact .inr (.inl ⟨entry.operation, rfl, lt_of_not_ge h0, rfl, rfl⟩)

/-- Concrete starting state for the C8 instance: a repository whose
storage already holds the branch reference about to be "created". -/
def c8tA : ObjectId := ⟨.enat 10⟩

def c8tB : ObjectId := ⟨.enat 20⟩

def c8Repo : Repo :=
  { store := { objects := [],
               references := [("refs/heads/-b ..", .direct c8tA)] },
    current_position := 0, log_chain := [], next_uuid := 0 }

/-- C8 counterexample: `create_branch` succeeds — and overwrites — at a
name that is already present, contains whitespace and `..`, starts with
`-`, and whose target object does not exist; the claim requires each of
these to fail leaving state unchanged. -/
theorem c8_create_branch_unvalidated :
    (Repository.create_branch c8Repo "-b .." c8tB).1 = .ok () ∧
    lookupA "refs/heads/-b .."
        (Repository.create_branch c8Repo "-b .." c8tB).2.store.references =
      some (.direct c8tB) ∧
    c8tB ≠ c8tA ∧
    c8Repo.store.load_object c8tB = none ∧
    lookupA "refs/heads/-b .." c8Repo.store.references = some (.direct c8tA) ∧
    ("-b .." : String).data = ['-', 'b', ' ', '.', '.'] := by
  refine ⟨rfl, rfl, by decide, rfl, rfl, rfl⟩

/-- C8 amended: `create_branch(name, target)` never fails: it performs no
name validation, no target-existence check and no `RefExists` check; it
unconditionally points `refs/heads/<name>` at the target (overwriting any
previous value) and appends one log entry, leaving the cursor at the
tip. -/
theorem c8_create_branch_always_succeeds (r : Repo) (name : String)
    (target : ObjectId) :
    (Repository.create_branch r name target).1 = .ok () ∧
    lookupA ("refs/heads/" ++ name)
        (Repository.create_branch r name target).2.store.references =
      some (.direct target) ∧
    (Repository.create_branch r name target).2.log_chain =
      (if r.current_position < r.log_chain.length then
        r.log_chain.take r.current_position
      else r.log_chain) ++ [r.next_uuid] ∧
    (Repository.create_branch r name target).2.current_position =
      (Repository.create_branch r name target).2.log_chain.length := by
  refine ⟨rfl, ?_, rfl, rfl⟩
  simp only [Repository.create_branch, OperationLog.record,
    update_log_chain_ref, storeComputed_eq, MemoryStorage.update_ref]
  rw [lookupA_insertA_ne _ _ _ _ (branch_ref_ne_chain name)]
  rw [lookupA_insertA_ne _ _ _ _ (branch_ref_ne_oplog name _)]
  exact lookupA_insertA_self _ _ _

/-- Post-init repository: one log entry (the initial commit), cursor at
one. -/
def c4Repo : Repo := Repository.init MemoryStorage.new

/-- C4 counterexample: in the post-init state the cursor is non-zero,
yet `undo` does not decrement it — it fails on the initial commit (whose
`before_head` is empty) and leaves the cursor at one. -/
theorem c4_undo_initial_commit_no_decrement :
    c4Repo.current_position = 1 ∧
    (OperationLog.undo c4Repo).1 =
      .error (.backend "Cannot undo initial commit - no previous state") ∧
    (OperationLog.undo c4Repo).2.current_position = 1 := by
  refine ⟨rfl, rfl, rfl⟩

/-- C4 amended: `record` puts the cursor at the chain length and
truncates `[cursor, len)` before appending whenever the cursor is below
the length; `undo` returns `None` at zero and, when it succeeds,
decrements the cursor by one; `redo` returns `None` at the tip and, when
it succeeds, increments the cursor by one; whenever `undo` or `redo`
fails with an error (as `undo` does on an initial-commit entry), the
cursor and chain are left unchanged. -/
theorem c4_cursor_laws (r : Repo) :
    (∀ entry : LogEntry,
      (OperationLog.record r entry).current_position =
        (OperationLog.record r entry).log_chain.length ∧
      (OperationLog.record r entry).log_chain =
        (if r.current_position < r.log_chain.length then
          r.log_chain.take r.current_position
        else r.log_chain) ++ [entry.id]) ∧
    (r.current_position = 0 → OperationLog.undo r = (.ok none, r)) ∧
    (∀ op, (OperationLog.undo r).1 = .ok (some op) →
      r.current_position ≠ 0 ∧
      (OperationLog.undo r).2.current_position = r.current_position - 1) ∧
    (∀ e, (OperationLog.undo r).1 = .error e →
      (OperationLog.undo r).2.current_position = r.current_position ∧
      (OperationLog.undo r).2.log_chain = r.log_chain) ∧
    (r.log_chain.length ≤ r.current_position →
      OperationLog.redo r = (.ok none, r)) ∧
    (∀ op, (OperationLog.redo r).1 = .ok (some op) →
      r.current_position < r.log_chain.length ∧
      (OperationLog.redo r).2.current_position = r.current_position + 1) ∧
    (∀ e, (OperationLog.redo r).1 = .error e →
      (OperationLog.redo r).2.current_position = r.current_position ∧
      (OperationLog.redo r).2.log_chain = r.log_chain) := by
  refine ⟨fun entry => ⟨rfl, rfl⟩, ?_, ?_, ?_, ?_, ?_, ?_⟩
  · intro h0
    unfold OperationLog.undo
    rw [if_pos h0]
  · intro op hop
    rcases undo_cases r with ⟨he, _⟩ | ⟨op2, h1, hne, hpos, _⟩ | ⟨e, h1, _, _⟩
    · rw [he] at hop
      exact absurd hop (by simp)
    · exact ⟨hne, hpos⟩
    · exact absurd (h1.symm.trans hop) (by simp)
  · intro e he
    rcases undo_cases r with ⟨h1, h0⟩ | ⟨op2, h1, _, _, _⟩ |
        ⟨e2, h1, hpos, hchain⟩
    · rw [h1] at he
      exact absurd he (by simp)
    · exact absurd (h1.symm.trans he) (by simp)
    · exact ⟨hpos, hchain⟩
  · intro h0
    unfold OperationLog.redo
    rw [if_pos h0]
  · intro op hop
    rcases redo_cases r with ⟨he, _⟩ | ⟨op2, h1, hlt, hpos, _⟩ | ⟨e, h1, _, _⟩
    · rw [he] at hop
      exact absurd hop (by simp)
    · exact ⟨hlt, hpos⟩
    · exact absurd (h1.symm.trans hop) (by simp)
  · intro e he
    rcases redo_cases r with ⟨h1, h0⟩ | ⟨op2, h1, _, _, _⟩ |
        ⟨e2, h1, hpos, hchain⟩
    · rw [h1] at he
      exact absurd he (by simp)
    · exact absurd (h1.symm.trans he) (by simp)
    · exact ⟨hpos, hchain⟩

/-- Witness for the C4 amended theorem: `undo` on an empty log returns
`None` and changes nothing. -/
theorem c4_cursor_laws_witness :
    OperationLog.undo ⟨MemoryStorage.new, 0, [], 0⟩ =
      (.ok none, ⟨MemoryStorage.new, 0, [], 0⟩) :=
  (c4_cursor_laws ⟨MemoryStorage.new, 0, [], 0⟩).2.1 rfl

/-- C10: `record`, `undo`, `redo` and `compact` all preserve
`current_position ≤ log_chain.length`, and an `undo` that fails with an
error (in particular on a `Commit` entry with empty `before_head`, the
initial commit) leaves `current_position` and `log_chain` unchanged. -/
theorem c10_log_invariants (r : Repo)
    (h : r.current_position ≤ r.log_chain.length) :
    (∀ entry : LogEntry,
      (OperationLog.record r entry).current_position ≤
        (OperationLog.record r entry).log_chain.length) ∧
    (OperationLog.undo r).2.current_position ≤
      (OperationLog.undo r).2.log_chain.length ∧
    (OperationLog.redo r).2.current_position ≤
      (OperationLog.redo r).2.log_chain.length ∧
    (∀ k : Nat,
      (OperationLog.compact r k).current_position ≤
        (OperationLog.compact r k).log_chain.length) ∧
    (∀ e, (OperationLog.undo r).1 = .error e →
      (OperationLog.undo r).2.current_position = r.current_position ∧
      (OperationLog.undo r).2.log_chain = r.log_chain) := by
  refine ⟨fun entry => le_of_eq rfl, ?_, ?_, ?_, ?_⟩
  · rcases undo_cases r with ⟨he, _⟩ | ⟨op, _, _, hpos, hchain⟩ |
        ⟨e, _, hpos, hchain⟩
    · rw [he]; exact h
    · rw [hpos, hchain]; omega
    · rw [hpos, hchain]; exact h
  · rcases redo_cases r with ⟨he, _⟩ | ⟨op, _, hlt, hpos, hchain⟩ |
        ⟨e, _, hpos, hchain⟩
    · rw [he]; exact h
    · rw [hpos, hchain]; omega
    · rw [hpos, hchain]; exact h
  · intro k
    simp only [OperationLog.compact]
    by_cases hk : r.log_chain.length ≤ k
    · rw [if_pos hk]; exact h
    · rw [if_neg hk]
      simp only [ulcr_position, ulcr_chain]
      by_cases hc : r.log_chain.length - k < r.current_position
      · rw [if_pos hc, List.length_drop]
        omega
      · rw [if_neg hc]
        exact Nat.zero_le _
  · intro e he
    rcases undo_cases r with ⟨h1, _⟩ | ⟨op, h1, _, _, _⟩ |
        ⟨e2, h1, hpos, hchain⟩
    · rw [h1] at he
      exact absurd he (by simp)
    · exact absurd (h1.symm.trans he) (by simp)
    · exact ⟨hpos, hchain⟩

/-- Witness for C10 at the empty log. -/
theorem c10_log_invariants_witness :
    (OperationLog.undo ⟨MemoryStorage.new, 0, [], 0⟩).2.current_position ≤
      (OperationLog.undo ⟨MemoryStorage.new, 0, [], 0⟩).2.log_chain.length :=
  (c10_log_invariants ⟨MemoryStorage.new, 0, [], 0⟩ (by decide)).2.1

/-- The post-init repository and its HEAD commit, for the C1 instance. -/
def c1Repo0 : Repo := Repository.init MemoryStorage.new

def c1Head : ObjectId :=
  ((Repository.head c1Repo0.store).toOption).getD ⟨.enil⟩

def c1Repo1 : Repo := (Repository.create_branch c1Repo0 "feature" c1Head).2

/-- Did an undo succeed with an operation? -/
def isOkSome : Except StorageError (Option Operation) → Bool
  | .ok (some _) => true
  | _ => false

/-- C1 at the failing input: from the post-init state, one
`create_branch` followed by one `undo` removes the branch reference (the
inverse applies), but the reference snapshot does not return to the
starting snapshot: the log artifacts written by `record` remain —
`refs/logs/operations/1` exists and `refs/logs/chain` differs from its
post-init value. -/
theorem c1_undo_leaves_log_artifacts :
    (Repository.create_branch c1Repo0 "feature" c1Head).1 = .ok () ∧
    isOkSome (OperationLog.undo c1Repo1).1 = true ∧
    lookupA "refs/heads/feature"
      (OperationLog.undo c1Repo1).2.store.references = none ∧
    lookupA "refs/logs/operations/1"
      (OperationLog.undo c1Repo1).2.store.references ≠ none ∧
    lookupA "refs/logs/operations/1" c1Repo0.store.references = none ∧
    lookupA "refs/logs/chain" (OperationLog.undo c1Repo1).2.store.references ≠
      lookupA "refs/logs/chain" c1Repo0.store.references := by
  refine ⟨rfl, rfl, rfl, by decide, rfl, by decide⟩

end GitNext
